import Mathlib

/-!
Verification of the deal-monitoring pipeline of the Fil-Rouge-UTT repository
(`src/dealabs/cli.py` `monitor`, `src/dealabs/models.py` `Deal` and
`parse_timestamp`, `dealabs/dealabs.py` `Dealabs.get_new_deals`).

The Python code is shallowly embedded: timestamps are integer epoch seconds,
JSON field values are a small inductive, a raised exception is `none`, and the
webhook is an oracle mapping each posted record to its outcome.  The endless
`while True` loop is modelled as a fold over a finite list of ticks, one tick
per iteration, each carrying the wall clock of that iteration and the result of
its page fetch.
-/

namespace Dealabs

/-- A JSON field value as seen by the Python code: a number, a string, or
JSON null.  (A field can also be missing, modelled as `Option.none` around
this type.) -/
inductive JVal where
  | jnum (n : Int)
  | jstr (s : String)
  | jnull
deriving DecidableEq

/-- Python `int(value)` applied to an optional JSON field, as in
`int(data.get('temperature_rating'))` (models.py line 33): an integer passes
through, a string is parsed as an optionally signed decimal integer, and a
missing field (`int(None)`), null, or unparsable string raises — modelled as
`none`. -/
def pyInt : Option JVal → Option Int
  | some (.jnum n) => some n
  | some (.jstr s) => s.toInt?
  | _ => none

/-- The raw value of the `created` field.  `parse_timestamp` (models.py
lines 4-19) accepts a numeric Unix timestamp or a string in one of two exact
ISO-8601 formats; `strParsed t` abstracts a string in an accepted format by
the epoch time `t` it denotes, `strBad` a string matching neither format. -/
inductive JTime where
  | num (n : Int)
  | strParsed (t : Int)
  | strBad (s : String)
deriving DecidableEq

/-- A Python datetime as produced by `parse_timestamp`, carrying its epoch
time and its timezone-awareness.  A numeric value goes through
`datetime.fromtimestamp(value, tz=timezone.utc)` and is AWARE; a string goes
through `strptime` with a literal `'Z'` in the format (no `%z`), so the
result is NAIVE (no tzinfo).  Subtracting a naive datetime from the aware
`datetime.now(timezone.utc)` raises `TypeError`, which matters at
cli.py line 180. -/
inductive PyTime where
  | aware (t : Int)
  | naive (t : Int)
deriving DecidableEq

/-- models.py `parse_timestamp`: numeric values convert directly to an aware
datetime; strings in an accepted format `strptime`-parse to a NAIVE datetime
of the denoted time; everything else (including a missing field) yields
`None`. -/
def parse_timestamp : Option JTime → Option PyTime
  | some (.num n) => some (.aware n)
  | some (.strParsed t) => some (.naive t)
  | _ => none

/-- The upstream wire shape of one listing, restricted to the fields the
`Deal` constructor reads.  `thread_id` is assumed present and integral (the
upstream assigns integer identifiers); `merchant_name` is the already
flattened `merchant.name` (absent when the merchant object is absent). -/
structure RawDeal where
  typ : Option String
  thread_id : Nat
  title : Option String
  deal_uri : Option String
  price : Option String
  group_display_summary : Option String
  merchant_name : Option String
  temperature_rating : Option JVal
  created : Option JTime
deriving DecidableEq

/-- The normalized record built by `Deal.__init__` (models.py lines 22-36),
restricted to the fields the monitor loop reads. -/
structure Deal where
  deal_type : Option String
  thread_id : Nat
  title : Option String
  url : Option String
  price : Option String
  category : Option String
  merchant : Option String
  temperature : Int
  created : Option PyTime
deriving DecidableEq

/-- `Deal.__init__` (models.py lines 22-36).  Every field is a tolerant
`data.get(...)` except `temperature = int(data.get('temperature_rating'))`,
which raises when the field is missing or not parsable as an integer;
a raised constructor is modelled as `none`. -/
def Deal.ofRaw (d : RawDeal) : Option Deal :=
  match pyInt d.temperature_rating with
  | none => none
  | some t => some
      { deal_type := d.typ
        thread_id := d.thread_id
        title := d.title
        url := d.deal_uri
        price := d.price
        category := d.group_display_summary
        merchant := d.merchant_name
        temperature := t
        created := parse_timestamp d.created }

/-- The Python list comprehension `[Deal(deal_data) for deal_data in
deals_data]` (dealabs.py line 54): the first constructor that raises aborts
the whole list. -/
def traverseOption (f : α → Option β) : List α → Option (List β)
  | [] => some []
  | a :: as =>
    match f a with
    | none => none
    | some b =>
      match traverseOption f as with
      | none => none
      | some bs => some (b :: bs)

/-- Character-level lowering, modelling Python `str.lower()` (the records the
filter inspects are compared after lowering both sides). -/
def lowerStr (s : String) : String := ⟨s.data.map Char.toLower⟩

/-- `startsWithL n h`: the character list `n` is an initial segment of `h`. -/
def startsWithL : List Char → List Char → Bool
  | [], _ => true
  | _ :: _, [] => false
  | a :: as, b :: bs => a == b && startsWithL as bs

/-- `containsSubL n h`: `n` occurs as a contiguous segment of `h`. -/
def containsSubL (needle : List Char) : List Char → Bool
  | [] => needle.isEmpty
  | c :: rest => startsWithL needle (c :: rest) || containsSubL needle rest

/-- Python `needle in haystack` on strings: contiguous substring test. -/
def strIn (needle haystack : String) : Bool :=
  containsSubL needle.data haystack.data

/-- `deal.title.lower() if deal.title else ''` (cli.py lines 186-187): a
missing (or empty, which lowers to itself) string becomes `''`. -/
def pyLowerOpt : Option String → String
  | some s => lowerStr s
  | none => ""

/-- The `monitor` command options (cli.py lines 133-139) read inside the
loop.  CLI defaults: interval 300, min_age 300, min_temperature 50. -/
structure Config where
  keywords : List String
  categories : List String
  interval : Nat
  min_age : Int
  min_temperature : Int
deriving DecidableEq

/-- Outcome of one `requests.post` to the webhook (cli.py lines 206-217):
a 200 response, a non-200 response, or a `RequestException`. -/
inductive SendOutcome where
  | ok
  | httpFail (code : Nat)
  | exn
deriving DecidableEq

/-- Result of the page fetch of one iteration: the raw records of the page,
or a raised transport error. -/
inductive FetchResult where
  | ok (raws : List RawDeal)
  | err
deriving DecidableEq

/-- Observable result of one loop iteration: the watermark afterwards, the
webhook posts in order with their outcomes, the sleep performed, and whether
the per-iteration error handler fired (cli.py lines 228-230). -/
structure IterOut where
  watermark : Nat
  attempts : List (Deal × SendOutcome)
  slept : Nat
  errorLogged : Bool
deriving DecidableEq

/-- The records the webhook was invoked for, in invocation order. -/
def IterOut.delivered (r : IterOut) : List Deal :=
  r.attempts.map (fun p => p.1)

/-- cli.py lines 186-194: the keyword/category/temperature decision for one
record that has survived the watermark, creation-time and age gates. -/
def contentTempMatch (cfg : Config) (d : Deal) : Bool :=
  let title := pyLowerOpt d.title
  let category := pyLowerOpt d.category
  let keyword_match :=
    if cfg.keywords.isEmpty then true
    else cfg.keywords.any (fun kw => strIn (lowerStr kw) title)
  let category_match :=
    if cfg.categories.isEmpty then true
    else cfg.categories.any (fun cat => strIn (lowerStr cat) category)
  let temperature_match := decide (cfg.min_temperature ≤ d.temperature)
  (keyword_match || category_match) && temperature_match

/-- Whether one record makes cli.py line 180 raise: it passes the watermark
gate of line 172 (`thread_id > last_processed_id`) and its creation time is a
NAIVE datetime (string-parsed), so the aware `current_time` minus it is a
`TypeError`.  Records at or below the watermark are skipped at line 172
before the subtraction and cannot raise. -/
def naivePastGate (last : Nat) (d : Deal) : Bool :=
  decide (last < d.thread_id) &&
    match d.created with
    | some (.naive _) => true
    | _ => false

/-- Python `if deal.thread_id <= last_processed_id: continue` through
`if (keyword_match or category_match) and temperature_match:` (cli.py
lines 170-194): whether the loop body reaches the webhook post for one
record, on walks where no record raises.  Only an AWARE (numeric-epoch)
creation time ever reaches the age comparison; a missing one is skipped with
a warning and a naive one raises instead (see `processDeals`). -/
def processGate (cfg : Config) (now : Int) (last : Nat) (d : Deal) : Bool :=
  if d.thread_id ≤ last then false
  else
    match d.created with
    | some (.aware created) =>
      if now - created < cfg.min_age then false
      else contentTempMatch cfg d
    | _ => false

/-- The `for deal in deals` walk (cli.py lines 170-217): skip records at or
below the watermark (line 172), warn and skip records with no parsed
creation time (lines 176-178), RAISE `TypeError` at line 180 when the parsed
creation time is naive (aware `current_time` minus naive datetime) — ending
the walk, with the posts already made standing — otherwise apply the age and
content/temperature gates and post matching records.  Returns the webhook
posts in order and whether the walk raised. -/
def processDeals (cfg : Config) (sink : Deal → SendOutcome) (now : Int) (last : Nat) :
    List Deal → List (Deal × SendOutcome) × Bool
  | [] => ([], false)
  | d :: ds =>
    if d.thread_id ≤ last then processDeals cfg sink now last ds
    else
      match d.created with
      | none => processDeals cfg sink now last ds
      | some (.naive _) => ([], true)
      | some (.aware created) =>
        if now - created < cfg.min_age then processDeals cfg sink now last ds
        else if contentTempMatch cfg d then
          let r := processDeals cfg sink now last ds
          ((d, sink d) :: r.1, r.2)
        else processDeals cfg sink now last ds

/-- Stable insertion by ascending `thread_id`; an element goes before the
first element whose identifier is not smaller. -/
def insertById (d : Deal) : List Deal → List Deal
  | [] => [d]
  | e :: es => if d.thread_id ≤ e.thread_id then d :: e :: es else e :: insertById d es

/-- `deals.sort(key=lambda deal: deal.thread_id)` (cli.py line 161): Python's
sort is a stable ascending sort by the key, and a stable sort by a total key
order is extensionally unique, so stable insertion sort models it. -/
def sortById : List Deal → List Deal
  | [] => []
  | d :: ds => insertById d (sortById ds)

/-- `current_batch_max_id` (cli.py lines 163-166): `last_processed_id` when
the batch is empty, otherwise `max(deal.thread_id for deal in deals)`. -/
def batchMaxId (last : Nat) : List Deal → Nat
  | [] => last
  | d :: ds => (ds.map (fun e => e.thread_id)).foldl max d.thread_id

/-- cli.py lines 156-161 with `Dealabs.get_new_deals` (dealabs.py lines
46-54): fetch one page and build `Deal` objects — a transport error or a
raising `Deal` constructor raises out of the whole call (`none`) — then keep
only records with `deal_type == 'deals'` and sort ascending by `thread_id`. -/
def fetchDeals : FetchResult → Option (List Deal)
  | .err => none
  | .ok raws =>
    match traverseOption Deal.ofRaw raws with
    | none => none
    | some ds => some (sortById (ds.filter (fun d => d.deal_type == some "deals")))

/-- The sorted deal-kind batch an iteration works on; empty when the fetch or
a constructor raised. -/
def iterDeals (f : FetchResult) : List Deal :=
  (fetchDeals f).getD []

/-- One iteration of the `while True` body (cli.py lines 153-230).  A raise
during the fetch, the `Deal` construction, or the per-record walk (the
`TypeError` of line 180) lands in the broad `except Exception` handler:
error logged, `time.sleep(60)`, and — crucially — the assignment
`last_processed_id = current_batch_max_id` at line 220 never runs, so the
watermark keeps its previous value; posts already made before the raise
stand.  On a raise-free iteration the watermark becomes
`current_batch_max_id` and the loop sleeps the configured interval. -/
def monitorIteration (cfg : Config) (sink : Deal → SendOutcome) (now : Int)
    (f : FetchResult) (last : Nat) : IterOut :=
  match fetchDeals f with
  | none => ⟨last, [], 60, true⟩
  | some deals =>
    let r := processDeals cfg sink now last deals
    if r.2 then ⟨last, r.1, 60, true⟩
    else ⟨batchMaxId last deals, r.1, cfg.interval, false⟩

/-- A finite prefix of the endless loop: each tick carries the iteration's
wall clock and its fetch result.  Returns the final watermark and the
concatenated webhook posts of the whole run. -/
def monitorRun (cfg : Config) (sink : Deal → SendOutcome) :
    List (Int × FetchResult) → Nat → Nat × List (Deal × SendOutcome)
  | [], last => (last, [])
  | (now, f) :: rest, last =>
    let r := monitorIteration cfg sink now f last
    let t := monitorRun cfg sink rest r.watermark
    (t.1, r.attempts ++ t.2)

/-- Identifiers of all records posted to the webhook over a run, in
invocation order. -/
def runTraceIds (cfg : Config) (sink : Deal → SendOutcome)
    (ticks : List (Int × FetchResult)) (w : Nat) : List Nat :=
  (monitorRun cfg sink ticks w).2.map (fun p => p.1.thread_id)

/-- The watermark an iteration leaves behind: unchanged when the walk raises
at a naive-created record past the gate (the line 220 assignment is
skipped), the batch maximum otherwise.  Independent of the criteria, the
clock and the webhook. -/
def stepWatermark (f : FetchResult) (w : Nat) : Nat :=
  if (iterDeals f).any (naivePastGate w) then w else batchMaxId w (iterDeals f)

/-- The fetched batches never pull the watermark down: every iteration's
deal-kind batch is empty or contains an identifier at least the watermark
current when the batch arrives.  (True of a feed that always returns the
newest records, but not guaranteed by the code itself.) -/
def noRegress : List (Int × FetchResult) → Nat → Bool
  | [], _ => true
  | (_, f) :: rest, w =>
    ((iterDeals f).isEmpty || (iterDeals f).any (fun d => decide (w ≤ d.thread_id))) &&
      noRegress rest (stepWatermark f w)

/-- No iteration of the run raises the line 180 `TypeError`: no tick's
deal-kind batch contains a record past the then-current watermark whose
creation time parsed from an ISO string (naive datetime). -/
def noCrashRun : List (Int × FetchResult) → Nat → Bool
  | [], _ => true
  | (_, f) :: rest, w =>
    !((iterDeals f).any (naivePastGate w)) && noCrashRun rest (stepWatermark f w)

/-- Every tick's deal-kind batch lists each identifier at most once. -/
def batchesNodup (ticks : List (Int × FetchResult)) : Bool :=
  ticks.all (fun t => decide (((iterDeals t.2).map (fun d => d.thread_id)).Nodup))

/-- Spec §4.4 step 4, in the spec's words: the keyword set is empty, or some
keyword is a (case-insensitively lowered) substring of the title. -/
def KeywordMatch (cfg : Config) (d : Deal) : Prop :=
  cfg.keywords = [] ∨ ∃ kw ∈ cfg.keywords, strIn (lowerStr kw) (pyLowerOpt d.title) = true

/-- Spec §4.4 step 5, in the spec's words: the category set is empty, or some
configured category is a substring of the record's category. -/
def CategoryMatch (cfg : Config) (d : Deal) : Prop :=
  cfg.categories = [] ∨ ∃ cat ∈ cfg.categories, strIn (lowerStr cat) (pyLowerOpt d.category) = true

/-- Spec §4.4 steps 2-3 restricted to the creation times the program can
actually compare: an AWARE (numeric-epoch) creation time whose age
`now - created` is at least the configured minimum.  A string-parsed (naive)
creation time never reaches the age comparison — it raises instead. -/
def AgeOk (cfg : Config) (now : Int) (d : Deal) : Prop :=
  ∃ c, d.created = some (PyTime.aware c) ∧ cfg.min_age ≤ now - c

/-- Wildcard criteria: no keyword or category filters, minimum age 0,
minimum temperature 0 (the configuration of spec §8's wildcard property). -/
def cfgW : Config := ⟨[], [], 300, 0, 0⟩

/-- Wildcard criteria with a minimum age of 500 seconds. -/
def cfgA : Config := ⟨[], [], 300, 500, 0⟩

/-- The CLI defaults (cli.py lines 137-139): interval 300, min-age 300,
min-temperature 50. -/
def cfgDef : Config := ⟨[], [], 300, 300, 50⟩

/-- Keyword and category criteria, both sets non-empty. -/
def cfgKw : Config := ⟨["console"], ["books"], 300, 0, 50⟩

/-- A webhook that accepts every post. -/
def sinkOk : Deal → SendOutcome := fun _ => SendOutcome.ok

/-- A deal-kind raw record with the given identifier, temperature and
creation time, all other fields benign. -/
def mkRaw (i : Nat) (temp : Int) (created : Int) : RawDeal :=
  ⟨some "deals", i, some "Deal", some "http://x", none, none, none,
   some (.jnum temp), some (.num created)⟩

/-- The `Deal` that `Deal.ofRaw` builds from `mkRaw i temp created`: the
numeric timestamp parses to an aware datetime. -/
def mkDeal (i : Nat) (temp : Int) (created : Int) : Deal :=
  ⟨some "deals", i, some "Deal", some "http://x", none, none, none, temp,
   some (.aware created)⟩

/-- A deal-kind raw record like `mkRaw`, except that its `created` field is
an ISO-8601 string in an accepted `strptime` format, so parsing yields a
NAIVE datetime. -/
def mkRawIso (i : Nat) (temp : Int) (created : Int) : RawDeal :=
  ⟨some "deals", i, some "Deal", some "http://x", none, none, none,
   some (.jnum temp), some (.strParsed created)⟩

/-- The `Deal` that `Deal.ofRaw` builds from `mkRawIso i temp created`. -/
def mkDealIso (i : Nat) (temp : Int) (created : Int) : Deal :=
  ⟨some "deals", i, some "Deal", some "http://x", none, none, none, temp,
   some (.naive created)⟩

/-- Ticks on which identifier 10 is delivered twice: delivered at watermark 0,
then a batch containing only identifier 5 lowers the watermark to 5, then a
re-fetch of identifier 10 passes the `thread_id > last_processed_id` gate
again. -/
def c2Ticks : List (Int × FetchResult) :=
  [(1000, .ok [mkRaw 10 60 0]), (1300, .ok [mkRaw 5 60 0]), (1600, .ok [mkRaw 10 60 0])]

/-- Ticks whose batches never pull the watermark down. -/
def c2GoodTicks : List (Int × FetchResult) :=
  [(1000, .ok [mkRaw 10 60 0]), (1300, .ok [mkRaw 12 60 0])]

/-- Ticks on which identifier 10 is delivered before identifier 7. -/
def c7Ticks : List (Int × FetchResult) :=
  [(1000, .ok [mkRaw 10 60 0]), (1300, .ok [mkRaw 5 60 0]), (1600, .ok [mkRaw 7 60 0])]

/-- Ascending ticks for the delivery-order witness. -/
def c7GoodTicks : List (Int × FetchResult) :=
  [(1000, .ok [mkRaw 3 60 0]), (1300, .ok [mkRaw 9 60 0])]

/-- Under `cfgA` (minimum age 500 s) the record with identifier 10 created at
200 is too young at time 600, an all-older batch then lowers the watermark,
and a re-fetch at time 1200 delivers it. -/
def c10Ticks : List (Int × FetchResult) :=
  [(600, .ok [mkRaw 10 60 200]), (900, .ok [mkRaw 5 60 0]), (1200, .ok [mkRaw 10 60 200])]

/-- A raw record whose `temperature_rating` field is missing, so
`int(data.get('temperature_rating'))` raises in the `Deal` constructor. -/
def rawNoTemp : RawDeal :=
  ⟨some "deals", 15, some "Deal", some "http://x", none, none, none, none, some (.num 0)⟩

/-- A deal-kind raw record with temperature -1. -/
def rawNeg : RawDeal :=
  ⟨some "deals", 30, some "Deal", some "http://x", none, none, none,
   some (.jnum (-1)), some (.num 0)⟩

/-- The `Deal` built from `rawNeg`. -/
def dNeg : Deal :=
  ⟨some "deals", 30, some "Deal", some "http://x", none, none, none, -1, some (.aware 0)⟩

/-- A deal-kind raw record whose title contains the keyword "console"
(case-insensitively) and whose category "Gaming" matches no configured
category of `cfgKw`. -/
def rawConsole : RawDeal :=
  ⟨some "deals", 40, some "PS5 Console Deal", some "http://x", none, some "Gaming", none,
   some (.jnum 60), some (.num 0)⟩

/-- The `Deal` built from `rawConsole`. -/
def dConsole : Deal :=
  ⟨some "deals", 40, some "PS5 Console Deal", some "http://x", none, some "Gaming", none,
   60, some (.aware 0)⟩

theorem mem_insertById (d a : Deal) (l : List Deal) :
    a ∈ insertById d l ↔ a = d ∨ a ∈ l := by
  induction l with
  | nil => simp [insertById]
  | cons e es ih =>
    by_cases h : d.thread_id ≤ e.thread_id
    · simp only [insertById, if_pos h, List.mem_cons]
    · simp only [insertById, if_neg h, List.mem_cons, ih]
      tauto

theorem mem_sortById (a : Deal) (l : List Deal) : a ∈ sortById l ↔ a ∈ l := by
  induction l with
  | nil => simp [sortById]
  | cons d ds ih => simp [sortById, mem_insertById, ih]

theorem pairwise_insertById (d : Deal) (l : List Deal)
    (h : l.Pairwise (fun a b => a.thread_id ≤ b.thread_id)) :
    (insertById d l).Pairwise (fun a b => a.thread_id ≤ b.thread_id) := by
  induction l with
  | nil => simp [insertById]
  | cons e es ih =>
    rcases List.pairwise_cons.mp h with ⟨he, hes⟩
    by_cases hle : d.thread_id ≤ e.thread_id
    · rw [insertById, if_pos hle]
      refine List.pairwise_cons.mpr ⟨?_, h⟩
      intro b hb
      rcases List.mem_cons.mp hb with rfl | hb
      · exact hle
      · exact le_trans hle (he b hb)
    · rw [insertById, if_neg hle]
      refine List.pairwise_cons.mpr ⟨?_, ih hes⟩
      intro b hb
      rcases (mem_insertById d b es).mp hb with rfl | hb
      · omega
      · exact he b hb

theorem pairwise_sortById (l : List Deal) :
    (sortById l).Pairwise (fun a b => a.thread_id ≤ b.thread_id) := by
  induction l with
  | nil => simp [sortById]
  | cons d ds ih => exact pairwise_insertById d _ ih

theorem foldl_max_init_le (l : List Nat) : ∀ i : Nat, i ≤ l.foldl max i := by
  induction l with
  | nil => intro i; simp
  | cons b t ih =>
    intro i
    rw [List.foldl_cons]
    exact le_trans (Nat.le_max_left i b) (ih (max i b))

theorem foldl_max_mem_le (l : List Nat) : ∀ i a : Nat, a ∈ l → a ≤ l.foldl max i := by
  induction l with
  | nil => intro i a ha; simp at ha
  | cons b t ih =>
    intro i a ha
    rw [List.foldl_cons]
    rcases List.mem_cons.mp ha with rfl | ha
    · exact le_trans (Nat.le_max_right i a) (foldl_max_init_le t (max i a))
    · exact ih (max i b) a ha

theorem foldl_max_mem_or (l : List Nat) : ∀ i : Nat, l.foldl max i = i ∨ l.foldl max i ∈ l := by
  induction l with
  | nil => intro i; left; rfl
  | cons b t ih =>
    intro i
    rw [List.foldl_cons]
    rcases ih (max i b) with h | h
    · rcases Nat.le_total i b with hib | hbi
      · right
        rw [h, Nat.max_eq_right hib]
        exact List.mem_cons_self b t
      · left
        rw [h, Nat.max_eq_left hbi]
    · right
      exact List.mem_cons_of_mem b h

theorem batchMaxId_mem_le (last : Nat) (l : List Deal) (d : Deal) (hd : d ∈ l) :
    d.thread_id ≤ batchMaxId last l := by
  cases l with
  | nil => simp at hd
  | cons e es =>
    rw [batchMaxId]
    rcases List.mem_cons.mp hd with rfl | hd
    · exact foldl_max_init_le _ _
    · exact foldl_max_mem_le _ _ _ (List.mem_map_of_mem _ hd)

theorem batchMaxId_exists_eq (last : Nat) (l : List Deal) (h : l ≠ []) :
    ∃ d ∈ l, batchMaxId last l = d.thread_id := by
  cases l with
  | nil => exact absurd rfl h
  | cons e es =>
    rw [batchMaxId]
    rcases foldl_max_mem_or (es.map fun x => x.thread_id) e.thread_id with h1 | h1
    · exact ⟨e, List.mem_cons_self e es, h1⟩
    · rcases List.mem_map.mp h1 with ⟨d, hd, hde⟩
      exact ⟨d, List.mem_cons_of_mem e hd, hde.symm⟩

theorem le_batchMaxId_of_exists (last : Nat) (l : List Deal)
    (h : l = [] ∨ ∃ d ∈ l, last ≤ d.thread_id) : last ≤ batchMaxId last l := by
  rcases h with rfl | ⟨d, hd, hle⟩
  · exact Nat.le_refl _
  · exact le_trans hle (batchMaxId_mem_le last l d hd)

theorem traverseOption_eq_none_of_mem (f : α → Option β) (l : List α) (a : α)
    (ha : a ∈ l) (hfa : f a = none) : traverseOption f l = none := by
  induction l with
  | nil => simp at ha
  | cons b bs ih =>
    rcases List.mem_cons.mp ha with rfl | ha
    · simp [traverseOption, hfa]
    · cases hfb : f b with
      | none => simp [traverseOption, hfb]
      | some v => simp [traverseOption, hfb, ih ha]

theorem fetchDeals_ok (raws : List RawDeal) :
    fetchDeals (.ok raws) =
      (traverseOption Deal.ofRaw raws).map
        (fun ds => sortById (ds.filter (fun d => d.deal_type == some "deals"))) := by
  cases ht : traverseOption Deal.ofRaw raws <;> simp [fetchDeals, ht]

theorem iterDeals_of_some {f : FetchResult} {ds : List Deal}
    (h : fetchDeals f = some ds) : iterDeals f = ds := by
  simp [iterDeals, h]

theorem iterDeals_of_none {f : FetchResult}
    (h : fetchDeals f = none) : iterDeals f = [] := by
  simp [iterDeals, h]

theorem naivePastGate_false_of_le {last : Nat} {d : Deal} (h : d.thread_id ≤ last) :
    naivePastGate last d = false := by
  have hd : decide (last < d.thread_id) = false := decide_eq_false (by omega)
  simp [naivePastGate, hd]

theorem naivePastGate_false_of_none {last : Nat} {d : Deal} (hc : d.created = none) :
    naivePastGate last d = false := by
  simp [naivePastGate, hc]

theorem naivePastGate_false_of_aware {last : Nat} {d : Deal} {c : Int}
    (hc : d.created = some (.aware c)) : naivePastGate last d = false := by
  simp [naivePastGate, hc]

theorem naivePastGate_true_of_naive {last : Nat} {d : Deal} {t : Int}
    (h1 : ¬ d.thread_id ≤ last) (hc : d.created = some (.naive t)) :
    naivePastGate last d = true := by
  have hd : decide (last < d.thread_id) = true := decide_eq_true (by omega)
  simp [naivePastGate, hd, hc]

theorem processGate_false_of_skip {cfg : Config} {now : Int} {last : Nat} {d : Deal}
    (h : d.thread_id ≤ last) : processGate cfg now last d = false := by
  simp [processGate, h]

theorem processGate_false_of_not_aware {cfg : Config} {now : Int} {last : Nat} {d : Deal}
    (h1 : ¬ d.thread_id ≤ last) (hc : ∀ c, d.created ≠ some (.aware c)) :
    processGate cfg now last d = false := by
  rw [processGate, if_neg h1]
  cases hcr : d.created with
  | none => rfl
  | some pt =>
    cases pt with
    | aware c => exact absurd hcr (hc c)
    | naive t => rfl

theorem processGate_of_aware {cfg : Config} {now : Int} {last : Nat} {d : Deal} {c : Int}
    (h1 : ¬ d.thread_id ≤ last) (hc : d.created = some (.aware c)) :
    processGate cfg now last d =
      if now - c < cfg.min_age then false else contentTempMatch cfg d := by
  rw [processGate, if_neg h1, hc]

theorem processDeals_crashed (cfg : Config) (sink : Deal → SendOutcome) (now : Int)
    (last : Nat) (ds : List Deal) :
    (processDeals cfg sink now last ds).2 = ds.any (naivePastGate last) := by
  induction ds with
  | nil => rfl
  | cons d ds ih =>
    rw [List.any_cons]
    by_cases h1 : d.thread_id ≤ last
    · rw [naivePastGate_false_of_le h1, Bool.false_or]
      simpa [processDeals, h1] using ih
    · cases hc : d.created with
      | none =>
        rw [naivePastGate_false_of_none hc, Bool.false_or]
        simpa [processDeals, h1, hc] using ih
      | some pt =>
        cases pt with
        | naive t =>
          rw [naivePastGate_true_of_naive h1 hc, Bool.true_or]
          simp [processDeals, h1, hc]
        | aware c =>
          rw [naivePastGate_false_of_aware hc, Bool.false_or]
          by_cases h2 : now - c < cfg.min_age
          · simpa [processDeals, h1, hc, h2] using ih
          · by_cases h3 : contentTempMatch cfg d
            · simpa [processDeals, h1, hc, h2, h3] using ih
            · simpa [processDeals, h1, hc, h2, h3] using ih

theorem processDeals_no_crash (cfg : Config) (sink : Deal → SendOutcome) (now : Int)
    (last : Nat) (ds : List Deal) (h : ds.any (naivePastGate last) = false) :
    (processDeals cfg sink now last ds).1 =
      (ds.filter (processGate cfg now last)).map (fun d => (d, sink d)) := by
  induction ds with
  | nil => rfl
  | cons d ds ih =>
    rw [List.any_cons] at h
    rw [List.filter_cons]
    by_cases h1 : d.thread_id ≤ last
    · rw [naivePastGate_false_of_le h1, Bool.false_or] at h
      rw [processGate_false_of_skip h1]
      simpa [processDeals, h1] using ih h
    · cases hc : d.created with
      | none =>
        rw [naivePastGate_false_of_none hc, Bool.false_or] at h
        rw [processGate_false_of_not_aware h1 (by simp [hc])]
        simpa [processDeals, h1, hc] using ih h
      | some pt =>
        cases pt with
        | naive t =>
          rw [naivePastGate_true_of_naive h1 hc] at h
          cases h
        | aware c =>
          rw [naivePastGate_false_of_aware hc, Bool.false_or] at h
          rw [processGate_of_aware h1 hc]
          by_cases h2 : now - c < cfg.min_age
          · rw [if_pos h2]
            simpa [processDeals, h1, hc, h2] using ih h
          · rw [if_neg h2]
            by_cases h3 : contentTempMatch cfg d
            · rw [if_pos h3]
              simp [processDeals, h1, hc, h2, h3, ih h]
            · rw [if_neg (by simpa using h3)]
              simpa [processDeals, h1, hc, h2, h3] using ih h

theorem processDeals_fst_sublist (cfg : Config) (sink : Deal → SendOutcome) (now : Int)
    (last : Nat) (ds : List Deal) :
    List.Sublist ((processDeals cfg sink now last ds).1.map (fun p => p.1))
      (ds.filter (processGate cfg now last)) := by
  induction ds with
  | nil => simp [processDeals]
  | cons d ds ih =>
    rw [List.filter_cons]
    by_cases h1 : d.thread_id ≤ last
    · rw [processGate_false_of_skip h1]
      simpa [processDeals, h1] using ih
    · cases hc : d.created with
      | none =>
        rw [processGate_false_of_not_aware h1 (by simp [hc])]
        simpa [processDeals, h1, hc] using ih
      | some pt =>
        cases pt with
        | naive t =>
          simp [processDeals, h1, hc]
        | aware c =>
          rw [processGate_of_aware h1 hc]
          by_cases h2 : now - c < cfg.min_age
          · rw [if_pos h2]
            simpa [processDeals, h1, hc, h2] using ih
          · rw [if_neg h2]
            by_cases h3 : contentTempMatch cfg d
            · rw [if_pos h3]
              simp only [processDeals, if_neg h1, hc, if_neg h2, if_pos h3, List.map_cons]
              exact List.Sublist.cons₂ d ih
            · rw [if_neg (by simpa using h3)]
              simpa [processDeals, h1, hc, h2, h3] using ih

theorem processDeals_fst_eq (cfg : Config) (sink sink2 : Deal → SendOutcome) (now : Int)
    (last : Nat) (ds : List Deal) :
    (processDeals cfg sink now last ds).1.map (fun p => p.1) =
      (processDeals cfg sink2 now last ds).1.map (fun p => p.1) := by
  induction ds with
  | nil => rfl
  | cons d ds ih =>
    by_cases h1 : d.thread_id ≤ last
    · simpa [processDeals, h1] using ih
    · cases hc : d.created with
      | none => simpa [processDeals, h1, hc] using ih
      | some pt =>
        cases pt with
        | naive t => simp [processDeals, h1, hc]
        | aware c =>
          by_cases h2 : now - c < cfg.min_age
          · simpa [processDeals, h1, hc, h2] using ih
          · by_cases h3 : contentTempMatch cfg d
            · simp only [processDeals, if_neg h1, hc, if_neg h2, if_pos h3, List.map_cons]
              rw [ih]
            · simpa [processDeals, h1, hc, h2, h3] using ih

theorem processDeals_attempts_eq (cfg : Config) (sink : Deal → SendOutcome) (now : Int)
    (last : Nat) (ds : List Deal) :
    (processDeals cfg sink now last ds).1 =
      ((processDeals cfg sink now last ds).1.map (fun p => p.1)).map
        (fun d => (d, sink d)) := by
  induction ds with
  | nil => rfl
  | cons d ds ih =>
    by_cases h1 : d.thread_id ≤ last
    · simpa [processDeals, h1] using ih
    · cases hc : d.created with
      | none => simpa [processDeals, h1, hc] using ih
      | some pt =>
        cases pt with
        | naive t => simp [processDeals, h1, hc]
        | aware c =>
          by_cases h2 : now - c < cfg.min_age
          · simpa [processDeals, h1, hc, h2] using ih
          · by_cases h3 : contentTempMatch cfg d
            · simp only [processDeals, if_neg h1, hc, if_neg h2, if_pos h3, List.map_cons]
              rw [← ih]
            · simpa [processDeals, h1, hc, h2, h3] using ih

theorem monitorIteration_watermark (cfg : Config) (sink : Deal → SendOutcome)
    (now : Int) (f : FetchResult) (last : Nat) :
    (monitorIteration cfg sink now f last).watermark = stepWatermark f last := by
  cases h : fetchDeals f with
  | none =>
    have he : iterDeals f = [] := iterDeals_of_none h
    simp [monitorIteration, h, stepWatermark, he, batchMaxId]
  | some ds =>
    have he : iterDeals f = ds := iterDeals_of_some h
    rw [stepWatermark, he]
    by_cases hc : ds.any (naivePastGate last) = true
    · simp [monitorIteration, h, processDeals_crashed, hc]
    · simp [monitorIteration, h, processDeals_crashed, hc]

theorem monitorIteration_attempts (cfg : Config) (sink : Deal → SendOutcome)
    (now : Int) (f : FetchResult) (last : Nat) :
    (monitorIteration cfg sink now f last).attempts =
      (processDeals cfg sink now last (iterDeals f)).1 := by
  cases h : fetchDeals f with
  | none =>
    have he : iterDeals f = [] := iterDeals_of_none h
    simp [monitorIteration, h, he, processDeals]
  | some ds =>
    have he : iterDeals f = ds := iterDeals_of_some h
    rw [he]
    simp only [monitorIteration, h]
    split <;> rfl

theorem monitorIteration_delivered_eq (cfg : Config) (sink : Deal → SendOutcome)
    (now : Int) (f : FetchResult) (last : Nat) :
    (monitorIteration cfg sink now f last).delivered =
      (processDeals cfg sink now last (iterDeals f)).1.map (fun p => p.1) := by
  simp only [IterOut.delivered, monitorIteration_attempts]

theorem monitorIteration_delivered_of_no_crash (cfg : Config) (sink : Deal → SendOutcome)
    (now : Int) (f : FetchResult) (last : Nat)
    (h : (iterDeals f).any (naivePastGate last) = false) :
    (monitorIteration cfg sink now f last).delivered =
      (iterDeals f).filter (processGate cfg now last) := by
  rw [monitorIteration_delivered_eq, processDeals_no_crash cfg sink now last _ h,
    List.map_map]
  simp [Function.comp_def]

theorem delivered_sublist (cfg : Config) (sink : Deal → SendOutcome)
    (now : Int) (f : FetchResult) (last : Nat) :
    List.Sublist ((monitorIteration cfg sink now f last).delivered)
      ((iterDeals f).filter (processGate cfg now last)) := by
  rw [monitorIteration_delivered_eq]
  exact processDeals_fst_sublist cfg sink now last _

theorem mem_delivered {cfg : Config} {sink : Deal → SendOutcome} {now : Int}
    {f : FetchResult} {last : Nat} {d : Deal}
    (h : d ∈ (monitorIteration cfg sink now f last).delivered) :
    d ∈ iterDeals f ∧ processGate cfg now last d = true :=
  List.mem_filter.mp ((delivered_sublist cfg sink now f last).subset h)

theorem deal_type_of_mem_iterDeals {f : FetchResult} {d : Deal}
    (h : d ∈ iterDeals f) : d.deal_type = some "deals" := by
  cases f with
  | err => simp [iterDeals, fetchDeals] at h
  | ok raws =>
    cases ht : traverseOption Deal.ofRaw raws with
    | none => simp [iterDeals, fetchDeals_ok, ht] at h
    | some ds0 =>
      simp only [iterDeals, fetchDeals_ok, ht, Option.map_some', Option.getD_some] at h
      rw [mem_sortById] at h
      exact beq_iff_eq.mp (List.mem_filter.mp h).2

theorem iterDeals_pairwise (f : FetchResult) :
    (iterDeals f).Pairwise (fun a b => a.thread_id ≤ b.thread_id) := by
  cases f with
  | err => simp [iterDeals, fetchDeals]
  | ok raws =>
    cases ht : traverseOption Deal.ofRaw raws with
    | none => simp [iterDeals, fetchDeals_ok, ht]
    | some ds0 =>
      simp only [iterDeals, fetchDeals_ok, ht, Option.map_some', Option.getD_some]
      exact pairwise_sortById _

theorem keywordMatchB_iff (cfg : Config) (d : Deal) :
    (if cfg.keywords.isEmpty then true
     else cfg.keywords.any (fun kw => strIn (lowerStr kw) (pyLowerOpt d.title))) = true
      ↔ KeywordMatch cfg d := by
  by_cases hk : cfg.keywords = []
  · simp [hk, KeywordMatch]
  · have hne : cfg.keywords.isEmpty = false := by
      simpa [List.isEmpty_iff] using hk
    simp [hne, KeywordMatch, hk, List.any_eq_true]

theorem categoryMatchB_iff (cfg : Config) (d : Deal) :
    (if cfg.categories.isEmpty then true
     else cfg.categories.any (fun cat => strIn (lowerStr cat) (pyLowerOpt d.category))) = true
      ↔ CategoryMatch cfg d := by
  by_cases hc : cfg.categories = []
  · simp [hc, CategoryMatch]
  · have hne : cfg.categories.isEmpty = false := by
      simpa [List.isEmpty_iff] using hc
    simp [hne, CategoryMatch, hc, List.any_eq_true]

theorem contentTempMatch_iff (cfg : Config) (d : Deal) :
    contentTempMatch cfg d = true ↔
      (KeywordMatch cfg d ∨ CategoryMatch cfg d) ∧ cfg.min_temperature ≤ d.temperature := by
  simp only [contentTempMatch, Bool.and_eq_true, Bool.or_eq_true, keywordMatchB_iff,
    categoryMatchB_iff, decide_eq_true_eq]

theorem processGate_iff (cfg : Config) (now : Int) (last : Nat) (d : Deal) :
    processGate cfg now last d = true ↔
      last < d.thread_id ∧ AgeOk cfg now d ∧
        (KeywordMatch cfg d ∨ CategoryMatch cfg d) ∧
        cfg.min_temperature ≤ d.temperature := by
  by_cases h1 : d.thread_id ≤ last
  · rw [processGate_false_of_skip h1]
    constructor
    · intro h
      simp at h
    · rintro ⟨h2, -⟩
      omega
  · cases hc : d.created with
    | none =>
      rw [processGate_false_of_not_aware h1 (by simp [hc])]
      constructor
      · intro h
        simp at h
      · rintro ⟨-, ⟨c, hcc, -⟩, -⟩
        rw [hc] at hcc
        cases hcc
    | some pt =>
      cases pt with
      | naive t =>
        rw [processGate_false_of_not_aware h1 (by simp [hc])]
        constructor
        · intro h
          simp at h
        · rintro ⟨-, ⟨c, hcc, -⟩, -⟩
          rw [hc] at hcc
          cases hcc
      | aware c =>
        rw [processGate_of_aware h1 hc]
        by_cases h2 : now - c < cfg.min_age
        · rw [if_pos h2]
          constructor
          · intro h
            simp at h
          · rintro ⟨-, ⟨c2, hcc, hage⟩, -⟩
            rw [hc] at hcc
            injection hcc with hcc
            injection hcc with hcc
            omega
        · rw [if_neg h2, contentTempMatch_iff]
          constructor
          · rintro ⟨hcontent, htemp⟩
            exact ⟨by omega, ⟨c, hc, by omega⟩, hcontent, htemp⟩
          · rintro ⟨-, -, hcontent, htemp⟩
            exact ⟨hcontent, htemp⟩

theorem gt_of_mem_delivered {cfg : Config} {sink : Deal → SendOutcome} {now : Int}
    {f : FetchResult} {last : Nat} {d : Deal}
    (h : d ∈ (monitorIteration cfg sink now f last).delivered) : last < d.thread_id :=
  ((processGate_iff cfg now last d).mp (mem_delivered h).2).1

theorem le_watermark_of_mem_delivered {cfg : Config} {sink : Deal → SendOutcome} {now : Int}
    {f : FetchResult} {last : Nat} {d : Deal}
    (hcrash : (iterDeals f).any (naivePastGate last) = false)
    (h : d ∈ (monitorIteration cfg sink now f last).delivered) :
    d.thread_id ≤ (monitorIteration cfg sink now f last).watermark := by
  rw [monitorIteration_watermark, stepWatermark, hcrash]
  simp only [Bool.false_eq_true, if_false]
  exact batchMaxId_mem_le last _ d (mem_delivered h).1

theorem watermark_step_le {w : Nat} {f : FetchResult}
    (hb : ((iterDeals f).isEmpty || (iterDeals f).any (fun d => decide (w ≤ d.thread_id))) = true) :
    w ≤ stepWatermark f w := by
  rw [stepWatermark]
  cases hc : (iterDeals f).any (naivePastGate w) <;> simp [hc]
  apply le_batchMaxId_of_exists
  simp only [Bool.or_eq_true] at hb
  rcases hb with h | h
  · left
    exact List.isEmpty_iff.mp h
  · right
    rcases List.any_eq_true.mp h with ⟨d, hd, hdec⟩
    exact ⟨d, hd, of_decide_eq_true hdec⟩

theorem runTraceIds_cons (cfg : Config) (sink : Deal → SendOutcome) (now : Int)
    (f : FetchResult) (rest : List (Int × FetchResult)) (w : Nat) :
    runTraceIds cfg sink ((now, f) :: rest) w =
      ((monitorIteration cfg sink now f w).delivered.map (fun d => d.thread_id)) ++
        runTraceIds cfg sink rest (monitorIteration cfg sink now f w).watermark := by
  simp [runTraceIds, monitorRun, IterOut.delivered, List.map_map, Function.comp_def]

theorem run_trace_gt (cfg : Config) (sink : Deal → SendOutcome)
    (ticks : List (Int × FetchResult)) :
    ∀ w : Nat, noRegress ticks w = true →
      ∀ i ∈ runTraceIds cfg sink ticks w, w < i := by
  induction ticks with
  | nil =>
    intro w _ i hi
    simp [runTraceIds, monitorRun] at hi
  | cons t rest ih =>
    obtain ⟨now, f⟩ := t
    intro w h i hi
    simp only [noRegress, Bool.and_eq_true] at h
    obtain ⟨hb, hrest⟩ := h
    rw [runTraceIds_cons] at hi
    rcases List.mem_append.mp hi with hh | ht
    · rcases List.mem_map.mp hh with ⟨d, hd, rfl⟩
      exact gt_of_mem_delivered hd
    · rw [monitorIteration_watermark] at ht
      have hi2 := ih (stepWatermark f w) hrest i ht
      have hle : w ≤ stepWatermark f w := watermark_step_le hb
      omega

theorem iteration_delivered_pairwise (cfg : Config) (sink : Deal → SendOutcome)
    (now : Int) (f : FetchResult) (last : Nat) :
    ((monitorIteration cfg sink now f last).delivered.map (fun d => d.thread_id)).Pairwise
      (· ≤ ·) := by
  apply List.pairwise_map.mpr
  have hp : ((iterDeals f).filter (processGate cfg now last)).Pairwise
      (fun a b => a.thread_id ≤ b.thread_id) :=
    (iterDeals_pairwise f).sublist (List.filter_sublist _)
  exact hp.sublist (delivered_sublist cfg sink now f last)

theorem run_trace_pairwise_le (cfg : Config) (sink : Deal → SendOutcome)
    (ticks : List (Int × FetchResult)) :
    ∀ w : Nat, noRegress ticks w = true → noCrashRun ticks w = true →
      (runTraceIds cfg sink ticks w).Pairwise (· ≤ ·) := by
  induction ticks with
  | nil =>
    intro w _ _
    simp [runTraceIds, monitorRun]
  | cons t rest ih =>
    obtain ⟨now, f⟩ := t
    intro w h hnc
    simp only [noRegress, Bool.and_eq_true] at h
    obtain ⟨hb, hrest⟩ := h
    simp only [noCrashRun, Bool.and_eq_true] at hnc
    obtain ⟨hnc1, hnc2⟩ := hnc
    have hnc1f : (iterDeals f).any (naivePastGate w) = false := by
      simpa using hnc1
    rw [runTraceIds_cons]
    apply List.pairwise_append.mpr
    refine ⟨iteration_delivered_pairwise cfg sink now f w, ?_, ?_⟩
    · rw [monitorIteration_watermark]
      exact ih _ hrest hnc2
    · intro a ha b hbmem
      rw [monitorIteration_watermark] at hbmem
      rcases List.mem_map.mp ha with ⟨d, hd, rfl⟩
      have h1 : d.thread_id ≤ stepWatermark f w := by
        have h2 := le_watermark_of_mem_delivered hnc1f hd
        rwa [monitorIteration_watermark] at h2
      have h3 := run_trace_gt cfg sink rest (stepWatermark f w) hrest b hbmem
      omega

theorem iteration_delivered_ids_nodup (cfg : Config) (sink : Deal → SendOutcome)
    (now : Int) (f : FetchResult) (last : Nat)
    (h : ((iterDeals f).map (fun d => d.thread_id)).Nodup) :
    ((monitorIteration cfg sink now f last).delivered.map (fun d => d.thread_id)).Nodup := by
  have hs : List.Sublist ((monitorIteration cfg sink now f last).delivered) (iterDeals f) :=
    (delivered_sublist cfg sink now f last).trans (List.filter_sublist _)
  exact h.sublist (hs.map _)

theorem run_trace_pairwise_lt (cfg : Config) (sink : Deal → SendOutcome)
    (ticks : List (Int × FetchResult)) :
    ∀ w : Nat, noRegress ticks w = true → noCrashRun ticks w = true →
      batchesNodup ticks = true →
      (runTraceIds cfg sink ticks w).Pairwise (· < ·) := by
  induction ticks with
  | nil =>
    intro w _ _ _
    simp [runTraceIds, monitorRun]
  | cons t rest ih =>
    obtain ⟨now, f⟩ := t
    intro w h hnc hn
    simp only [noRegress, Bool.and_eq_true] at h
    obtain ⟨hb, hrest⟩ := h
    simp only [noCrashRun, Bool.and_eq_true] at hnc
    obtain ⟨hnc1, hnc2⟩ := hnc
    have hnc1f : (iterDeals f).any (naivePastGate w) = false := by
      simpa using hnc1
    simp only [batchesNodup, List.all_cons, Bool.and_eq_true] at hn
    obtain ⟨hn1, hn2⟩ := hn
    rw [runTraceIds_cons]
    apply List.pairwise_append.mpr
    refine ⟨?_, ?_, ?_⟩
    · have hle := iteration_delivered_pairwise cfg sink now f w
      have hnd := iteration_delivered_ids_nodup cfg sink now f w (of_decide_eq_true hn1)
      exact (hle.and hnd).imp (fun hab => lt_of_le_of_ne hab.1 hab.2)
    · rw [monitorIteration_watermark]
      exact ih _ hrest hnc2 (by simpa [batchesNodup] using hn2)
    · intro a ha b hbmem
      rw [monitorIteration_watermark] at hbmem
      rcases List.mem_map.mp ha with ⟨d, hd, rfl⟩
      have h1 : d.thread_id ≤ stepWatermark f w := by
        have h2 := le_watermark_of_mem_delivered hnc1f hd
        rwa [monitorIteration_watermark] at h2
      have h3 := run_trace_gt cfg sink rest (stepWatermark f w) hrest b hbmem
      omega

/-- C1 counterexample: the watermark CAN decrease.  Starting a run at the
initial watermark 0, a first batch with identifier 100 raises the watermark
to 100; a second batch containing only identifier 5 then sets
`last_processed_id = max(batch) = 5`, below the 100 it had before that
iteration (cli.py lines 163-166 and 219-220 take the maximum of the batch
alone, not of the batch and the previous watermark). -/
theorem watermark_can_decrease :
    (monitorIteration cfgW sinkOk 1000 (.ok [mkRaw 100 60 0]) 0).watermark = 100 ∧
    (monitorRun cfgW sinkOk
      [(1000, .ok [mkRaw 100 60 0]), (1300, .ok [mkRaw 5 60 0])] 0).1 = 5 ∧
    ¬ (100 ≤ 5) := by decide

/-- C1 amended: the watermark never decreases across an iteration PROVIDED
the iteration's deal-kind batch is empty or contains some identifier at least
the current watermark; without that proviso a batch of all-older identifiers
lowers it to the batch maximum.  The guarantee also covers iterations that
raise (fetch error, constructor error, or the line 180 `TypeError`), where
the watermark is simply unchanged. -/
theorem watermark_monotone (cfg : Config) (sink : Deal → SendOutcome) (now : Int)
    (f : FetchResult) (last : Nat)
    (h : iterDeals f = [] ∨ ∃ d ∈ iterDeals f, last ≤ d.thread_id) :
    last ≤ (monitorIteration cfg sink now f last).watermark := by
  rw [monitorIteration_watermark, stepWatermark]
  cases hcr : (iterDeals f).any (naivePastGate last) <;> simp [hcr]
  exact le_batchMaxId_of_exists last _ h

/-- Witness for `watermark_monotone` at a concrete batch. -/
theorem watermark_monotone_witness :
    50 ≤ (monitorIteration cfgW sinkOk 1000 (.ok [mkRaw 100 60 0]) 50).watermark :=
  watermark_monotone cfgW sinkOk 1000 (.ok [mkRaw 100 60 0]) 50 (by decide)

/-- C2 counterexample: at-most-once delivery fails across iterations.  On
`c2Ticks` the record with identifier 10 is posted to the webhook twice in one
run, because the intervening all-older batch lowered the watermark below 10. -/
theorem duplicate_delivery :
    runTraceIds cfgW sinkOk c2Ticks 0 = [10, 10] ∧
    ¬ (runTraceIds cfgW sinkOk c2Ticks 0).Nodup := by decide

/-- C2 amended: whenever every fetched deal-kind batch is empty or reaches at
least the current watermark (so the watermark never regresses), no iteration
raises the line 180 `TypeError` (no batch holds a string-created, hence
naive-datetime, record past the then-current watermark — a raise skips the
watermark update after records were already posted), and no batch repeats an
identifier, then no identifier is delivered more than once in a run; and
unconditionally, within any single iteration no record whose identifier is
at most the watermark at batch start is ever delivered. -/
theorem at_most_once (cfg : Config) (sink : Deal → SendOutcome)
    (ticks : List (Int × FetchResult))
    (h1 : noRegress ticks 0 = true) (h2 : noCrashRun ticks 0 = true)
    (h3 : batchesNodup ticks = true) :
    (runTraceIds cfg sink ticks 0).Nodup ∧
    ∀ (now : Int) (f : FetchResult) (last : Nat) (d : Deal),
      d ∈ (monitorIteration cfg sink now f last).delivered → last < d.thread_id := by
  constructor
  · exact (run_trace_pairwise_lt cfg sink ticks 0 h1 h2 h3).imp (fun h => Nat.ne_of_lt h)
  · intro now f last d hd
    exact gt_of_mem_delivered hd

/-- Witness for `at_most_once` on a concrete non-regressing, non-raising run. -/
theorem at_most_once_witness :
    (runTraceIds cfgW sinkOk c2GoodTicks 0).Nodup :=
  (at_most_once cfgW sinkOk c2GoodTicks (by decide) (by decide) (by decide)).1

/-- C3 counterexample: after an iteration the watermark is NOT
`max(previous watermark, batch max)`.  In a run whose first iteration sets
the watermark to 100, a second batch containing only identifier 7 leaves the
watermark at 7, not at `max 100 7 = 100`. -/
theorem watermark_ignores_previous :
    (monitorIteration cfgW sinkOk 1000 (.ok [mkRaw 100 60 0]) 0).watermark = 100 ∧
    (monitorRun cfgW sinkOk
      [(1000, .ok [mkRaw 100 60 0]), (1300, .ok [mkRaw 7 60 0])] 0).1 = 7 ∧
    max 100 7 = 100 ∧ (7 : Nat) ≠ 100 := by decide

/-- C3 amended: after an iteration the watermark equals the maximum
identifier of that iteration's deal-kind batch when the batch is non-empty
and the walk does not raise (even when that maximum is below the previous
watermark); it is unchanged when the batch is empty, and also unchanged when
the walk raises the line 180 `TypeError` at a string-created record past the
gate, because the line 220 assignment is skipped — independently of the
filter and of delivery outcomes, which the statement quantifies over. -/
theorem watermark_equals_batch_max (cfg : Config) (sink : Deal → SendOutcome)
    (now : Int) (f : FetchResult) (last : Nat) :
    (iterDeals f = [] → (monitorIteration cfg sink now f last).watermark = last) ∧
    ((iterDeals f).any (naivePastGate last) = true →
      (monitorIteration cfg sink now f last).watermark = last) ∧
    (iterDeals f ≠ [] → (iterDeals f).any (naivePastGate last) = false →
      (∀ d ∈ iterDeals f, d.thread_id ≤ (monitorIteration cfg sink now f last).watermark) ∧
      ∃ d ∈ iterDeals f, (monitorIteration cfg sink now f last).watermark = d.thread_id) := by
  rw [monitorIteration_watermark, stepWatermark]
  refine ⟨?_, ?_, ?_⟩
  · intro h
    rw [h]
    simp [batchMaxId]
  · intro h
    rw [h]
    simp
  · intro h hnc
    rw [hnc]
    simp only [Bool.false_eq_true, if_false]
    exact ⟨fun d hd => batchMaxId_mem_le last _ d hd, batchMaxId_exists_eq last _ h⟩

/-- Witness for `watermark_equals_batch_max` at a concrete non-empty,
raise-free batch. -/
theorem watermark_equals_batch_max_witness :
    (∀ d ∈ iterDeals (.ok [mkRaw 100 60 0]),
      d.thread_id ≤ (monitorIteration cfgW sinkOk 1000 (.ok [mkRaw 100 60 0]) 50).watermark) ∧
    ∃ d ∈ iterDeals (.ok [mkRaw 100 60 0]),
      (monitorIteration cfgW sinkOk 1000 (.ok [mkRaw 100 60 0]) 50).watermark = d.thread_id :=
  (watermark_equals_batch_max cfgW sinkOk 1000 (.ok [mkRaw 100 60 0]) 50).2.2
    (by decide) (by decide)

/-- C4 counterexample: the claimed decision rule does not hold of the
program.  The record built from `mkRawIso 25 60 0` has the "deals" kind, an
identifier above the watermark, a PARSABLE creation time (an ISO string in
an accepted `strptime` format denoting epoch 0, so its age 1000 would pass
`min_age = 0`), wildcard keyword/category criteria and temperature 60 ≥ 0 —
by the claimed rule it is eligible — yet the program delivers nothing:
`strptime` yields a naive datetime and cli.py line 180 raises `TypeError`
instead of deciding eligibility, taking the iteration's error path. -/
theorem eligibility_rule_fails_string_timestamp :
    mkDealIso 25 60 0 ∈ iterDeals (.ok [mkRawIso 25 60 0]) ∧
    (mkDealIso 25 60 0).deal_type = some "deals" ∧
    0 < (mkDealIso 25 60 0).thread_id ∧
    parse_timestamp (some (.strParsed 0)) = some (.naive 0) ∧
    cfgW.min_age ≤ (1000 : Int) - 0 ∧
    cfgW.min_temperature ≤ (mkDealIso 25 60 0).temperature ∧
    (monitorIteration cfgW sinkOk 1000 (.ok [mkRawIso 25 60 0]) 0).delivered = [] ∧
    (monitorIteration cfgW sinkOk 1000 (.ok [mkRawIso 25 60 0]) 0).errorLogged = true := by
  decide

/-- C4 amended: on iterations whose batch holds no string-created (naive
datetime) record past the watermark gate — so the line 180 `TypeError` is
not raised — a record is posted to the webhook iff it is in the iteration's
deal-kind batch (so has the "deals" kind), its identifier exceeds the
watermark, its creation time parsed from a NUMERIC epoch value and its age
is at least `min_age`, the keyword family OR the category family of the
criteria matches (each family a wildcard when empty), AND its temperature
reaches `min_temperature`.  The temperature-40-versus-50 exclusion holds
unconditionally; the keyword-only sufficiency holds on raise-free
iterations. -/
theorem eligibility_decision (cfg : Config) (sink : Deal → SendOutcome) (now : Int)
    (f : FetchResult) (last : Nat) (d : Deal) :
    ((iterDeals f).any (naivePastGate last) = false →
      (d ∈ (monitorIteration cfg sink now f last).delivered ↔
        d ∈ iterDeals f ∧ d.deal_type = some "deals" ∧ last < d.thread_id ∧
          AgeOk cfg now d ∧ (KeywordMatch cfg d ∨ CategoryMatch cfg d) ∧
          cfg.min_temperature ≤ d.temperature)) ∧
    (d.temperature = 40 → cfg.min_temperature = 50 →
      d ∉ (monitorIteration cfg sink now f last).delivered) ∧
    ((iterDeals f).any (naivePastGate last) = false →
      (∃ kw ∈ cfg.keywords, strIn (lowerStr kw) (pyLowerOpt d.title) = true) →
      d ∈ iterDeals f → last < d.thread_id → AgeOk cfg now d →
      cfg.min_temperature ≤ d.temperature →
      d ∈ (monitorIteration cfg sink now f last).delivered) := by
  refine ⟨?_, ?_, ?_⟩
  · intro hnc
    rw [monitorIteration_delivered_of_no_crash cfg sink now f last hnc, List.mem_filter,
      processGate_iff]
    constructor
    · rintro ⟨hm, h2, h3, h4, h5⟩
      exact ⟨hm, deal_type_of_mem_iterDeals hm, h2, h3, h4, h5⟩
    · rintro ⟨hm, -, h2, h3, h4, h5⟩
      exact ⟨hm, h2, h3, h4, h5⟩
  · intro ht hmin hd
    have h5 := ((processGate_iff cfg now last d).mp (mem_delivered hd).2).2.2.2
    rw [ht, hmin] at h5
    omega
  · intro hnc hkw hm hlast hage htemp
    rw [monitorIteration_delivered_of_no_crash cfg sink now f last hnc, List.mem_filter]
    exact ⟨hm, (processGate_iff cfg now last d).mpr ⟨hlast, hage, Or.inl (Or.inr hkw), htemp⟩⟩

/-- Witness for `eligibility_decision`: under `cfgKw` (keywords
`["console"]`, categories `["books"]`) the record titled "PS5 Console Deal"
with category "Gaming" and a numeric creation time is delivered — keyword
hit, no category match. -/
theorem eligibility_decision_witness :
    dConsole ∈ (monitorIteration cfgKw sinkOk 1000 (.ok [rawConsole]) 0).delivered :=
  (eligibility_decision cfgKw sinkOk 1000 (.ok [rawConsole]) 0 dConsole).2.2
    (by decide) (by decide) (by decide) (by decide) ⟨0, by decide, by decide⟩ (by decide)

/-- C5 counterexample: a record with a missing `temperature_rating` does NOT
merely fail the filter — `int(None)` raises inside the `Deal` constructor,
the whole batch construction in `get_new_deals` aborts, and nothing in the
batch is processed: with `rawNoTemp` first and a fully eligible record with
identifier 20 second, nothing is delivered and the iteration takes the error
path, while the same batch without `rawNoTemp` delivers identifier 20. -/
theorem bad_temperature_not_isolated :
    (monitorIteration cfgW sinkOk 1000 (.ok [rawNoTemp, mkRaw 20 60 0]) 0).delivered = [] ∧
    (monitorIteration cfgW sinkOk 1000 (.ok [rawNoTemp, mkRaw 20 60 0]) 0).errorLogged = true ∧
    (monitorIteration cfgW sinkOk 1000 (.ok [rawNoTemp, mkRaw 20 60 0]) 0).watermark = 0 ∧
    (monitorIteration cfgW sinkOk 1000 (.ok [mkRaw 20 60 0]) 0).delivered.map
      (fun d => d.thread_id) = [20] := by decide

/-- C5 amended: a record whose temperature value is absent or not parsable
as an integer makes the `Deal` constructor raise, which aborts the WHOLE
iteration: no record of that batch is filtered or delivered, the watermark
is unchanged, the error is logged and the loop sleeps the 60-second cooldown
and continues. -/
theorem bad_temperature_aborts (cfg : Config) (sink : Deal → SendOutcome) (now : Int)
    (raws : List RawDeal) (last : Nat)
    (h : ∃ r ∈ raws, pyInt r.temperature_rating = none) :
    monitorIteration cfg sink now (.ok raws) last = ⟨last, [], 60, true⟩ := by
  obtain ⟨r, hr, hnone⟩ := h
  have hofraw : Deal.ofRaw r = none := by
    simp [Deal.ofRaw, hnone]
  have ht : traverseOption Deal.ofRaw raws = none :=
    traverseOption_eq_none_of_mem _ _ _ hr hofraw
  simp [monitorIteration, fetchDeals_ok, ht]

/-- Witness for `bad_temperature_aborts` at a concrete batch. -/
theorem bad_temperature_aborts_witness :
    monitorIteration cfgW sinkOk 1000 (.ok [rawNoTemp]) 7 = ⟨7, [], 60, true⟩ :=
  bad_temperature_aborts cfgW sinkOk 1000 [rawNoTemp] 7 (by decide)

/-- C6 counterexample: with empty keyword and category sets and
`min_temperature = 0`, the deal-kind record `dNeg` (temperature -1, parsable
numeric creation time 0, age 1000 ≥ min_age 0, identifier above the
watermark) is NOT delivered: `deal.temperature >= min_temperature` fails on
a negative temperature even at threshold 0. -/
theorem wildcard_fails_negative_temperature :
    cfgW.keywords = [] ∧ cfgW.categories = [] ∧ cfgW.min_temperature = 0 ∧
    dNeg ∈ iterDeals (.ok [rawNeg]) ∧ dNeg.created = some (.aware 0) ∧
    cfgW.min_age ≤ (1000 : Int) - 0 ∧ 0 < dNeg.thread_id ∧
    dNeg ∉ (monitorIteration cfgW sinkOk 1000 (.ok [rawNeg]) 0).delivered := by decide

/-- C6 amended: with empty keyword and category sets and
`min_temperature = 0`, on an iteration whose batch holds no string-created
(naive datetime) record past the watermark gate, every deal-kind record of
the batch with a NUMERIC (aware) parsed creation time, age at least
`min_age`, NON-NEGATIVE temperature, and an identifier above the watermark
is delivered. -/
theorem wildcard_eligible (cfg : Config) (sink : Deal → SendOutcome) (now : Int)
    (f : FetchResult) (last : Nat) (d : Deal) (c : Int)
    (hk : cfg.keywords = []) ( _hc : cfg.categories = []) (ht : cfg.min_temperature = 0)
    (hnc : (iterDeals f).any (naivePastGate last) = false)
    (hmem : d ∈ iterDeals f) (hcr : d.created = some (.aware c))
    (hage : cfg.min_age ≤ now - c)
    (htemp : 0 ≤ d.temperature) (hid : last < d.thread_id) :
    d ∈ (monitorIteration cfg sink now f last).delivered := by
  rw [monitorIteration_delivered_of_no_crash cfg sink now f last hnc, List.mem_filter]
  refine ⟨hmem, (processGate_iff cfg now last d).mpr ?_⟩
  refine ⟨hid, ⟨c, hcr, hage⟩, Or.inl (Or.inl hk), ?_⟩
  rw [ht]
  exact htemp

/-- Witness for `wildcard_eligible` at a concrete record. -/
theorem wildcard_eligible_witness :
    mkDeal 10 60 0 ∈ (monitorIteration cfgW sinkOk 1000 (.ok [mkRaw 10 60 0]) 0).delivered :=
  wildcard_eligible cfgW sinkOk 1000 (.ok [mkRaw 10 60 0]) 0 (mkDeal 10 60 0) 0
    rfl rfl rfl (by decide) (by decide) rfl (by decide) (by decide) (by decide)

/-- C7 counterexample: deliveries within one run are NOT always
non-decreasing by identifier: on `c7Ticks` identifier 10 is delivered first,
an all-older batch then lowers the watermark to 5, and identifier 7 is
delivered after 10. -/
theorem out_of_order_delivery :
    runTraceIds cfgW sinkOk c7Ticks 0 = [10, 7] ∧
    ¬ (runTraceIds cfgW sinkOk c7Ticks 0).Pairwise (· ≤ ·) := by decide

/-- C7 amended: within any single iteration deliveries are in non-decreasing
identifier order — unconditionally, raising iterations included (the batch
is sorted ascending and posts before the raise stand).  Across a whole run
this extends to the full delivery sequence PROVIDED every fetched deal-kind
batch is empty or reaches at least the current watermark AND no iteration
raises the line 180 `TypeError` (a mid-batch raise skips the watermark
update after records were posted, letting a later batch deliver a smaller
identifier). -/
theorem delivery_order (cfg : Config) (sink : Deal → SendOutcome)
    (ticks : List (Int × FetchResult))
    (h1 : noRegress ticks 0 = true) (h2 : noCrashRun ticks 0 = true) :
    (runTraceIds cfg sink ticks 0).Pairwise (· ≤ ·) ∧
    ∀ (now : Int) (f : FetchResult) (last : Nat),
      ((monitorIteration cfg sink now f last).delivered.map
        (fun d => d.thread_id)).Pairwise (· ≤ ·) :=
  ⟨run_trace_pairwise_le cfg sink ticks 0 h1 h2,
   fun now f last => iteration_delivered_pairwise cfg sink now f last⟩

/-- Witness for `delivery_order` on a concrete non-regressing, non-raising
run. -/
theorem delivery_order_witness :
    (runTraceIds cfgW sinkOk c7GoodTicks 0).Pairwise (· ≤ ·) :=
  (delivery_order cfgW sinkOk c7GoodTicks (by decide) (by decide)).1

/-- C8 counterexample: the error cooldown is NOT longer than the normal poll
interval.  With the CLI defaults (interval 300), a transport error makes the
iteration sleep the fixed 60-second cooldown of `except Exception:
time.sleep(60)` — shorter than the interval (and equal to it whenever the
interval is configured as 60, hence not distinct either). -/
theorem cooldown_not_longer :
    (monitorIteration cfgDef sinkOk 0 .err 42).slept = 60 ∧
    (monitorIteration cfgDef sinkOk 0 .err 42).errorLogged = true ∧
    (monitorIteration cfgDef sinkOk 0 .err 42).watermark = 42 ∧
    cfgDef.interval = 300 ∧
    ¬ (cfgDef.interval < (monitorIteration cfgDef sinkOk 0 .err 42).slept) := by decide

/-- C8 amended: a transient fetch error aborts the iteration with the
watermark unchanged and nothing delivered, logs the error, sleeps a FIXED
60-second cooldown (independent of — not longer than — the poll interval),
and the loop then continues: a run beginning with an erroring tick behaves
exactly as the run without it. -/
theorem transient_error_handling (cfg : Config) (sink : Deal → SendOutcome) (now : Int)
    (last : Nat) (rest : List (Int × FetchResult)) :
    monitorIteration cfg sink now .err last = ⟨last, [], 60, true⟩ ∧
    monitorRun cfg sink ((now, .err) :: rest) last = monitorRun cfg sink rest last := by
  constructor
  · rfl
  · simp [monitorRun, monitorIteration, fetchDeals]

/-- C9: delivery outcomes are isolated.  The watermark and the sequence of
records posted to the webhook are identical under any two webhook behaviors
(so an HTTP failure or a transport exception on one record blocks neither
the following records nor the watermark advancement), and each record that
passes the filter is posted exactly once, in order, with its own outcome —
no retry within the iteration. -/
theorem delivery_failure_isolated (cfg : Config) (sink sink2 : Deal → SendOutcome)
    (now : Int) (f : FetchResult) (last : Nat) :
    (monitorIteration cfg sink now f last).watermark =
      (monitorIteration cfg sink2 now f last).watermark ∧
    (monitorIteration cfg sink now f last).delivered =
      (monitorIteration cfg sink2 now f last).delivered ∧
    (monitorIteration cfg sink now f last).attempts =
      (monitorIteration cfg sink now f last).delivered.map (fun d => (d, sink d)) := by
  refine ⟨?_, ?_, ?_⟩
  · rw [monitorIteration_watermark, monitorIteration_watermark]
  · rw [monitorIteration_delivered_eq, monitorIteration_delivered_eq]
    exact processDeals_fst_eq cfg sink sink2 now last _
  · rw [monitorIteration_attempts, monitorIteration_delivered_eq]
    exact processDeals_attempts_eq cfg sink now last _

/-- C10 counterexample: a record skipped as too young CAN be delivered in a
later iteration of the same run.  On `c10Ticks` under `cfgA` (min age 500),
identifier 10 (created 200, numeric) is observed at time 600 with age
400 < 500 and not delivered, the watermark rises to 10, but the next
all-older batch lowers the watermark to 5; when identifier 10 is fetched
again at time 1200 it passes the watermark gate and is delivered. -/
theorem young_record_delivered_later :
    (600 : Int) - 200 < cfgA.min_age ∧
    mkDeal 10 60 200 ∈ iterDeals (.ok [mkRaw 10 60 200]) ∧
    (monitorIteration cfgA sinkOk 600 (.ok [mkRaw 10 60 200]) 0).delivered = [] ∧
    runTraceIds cfgA sinkOk c10Ticks 0 = [10] := by decide

/-- C10 amended: a record observed in an iteration (in particular one
skipped there because its age is below `min_age`) is never delivered in the
remainder of the run PROVIDED the observing iteration does not raise the
line 180 `TypeError` (so the line 220 watermark update runs — the batch
maximum is computed before the age check, so the watermark then passes the
record's identifier) and every later deal-kind batch is empty or reaches at
least the then-current watermark.  Without the first proviso the watermark
never passes the record; without the second it can fall back below it; in
either case a re-fetch of the record can be delivered. -/
theorem observed_never_redelivered (cfg : Config) (sink : Deal → SendOutcome) (now : Int)
    (f : FetchResult) (last : Nat) (d : Deal) (rest : List (Int × FetchResult))
    (hmem : d ∈ iterDeals f)
    (hnc : (iterDeals f).any (naivePastGate last) = false)
    (hnr : noRegress rest ((monitorIteration cfg sink now f last).watermark) = true) :
    (∀ c, d.created = some (.aware c) → now - c < cfg.min_age →
      d ∉ (monitorIteration cfg sink now f last).delivered) ∧
    d.thread_id ∉ runTraceIds cfg sink rest
      ((monitorIteration cfg sink now f last).watermark) := by
  constructor
  · intro c hcr hyoung hdel
    rcases (processGate_iff cfg now last d).mp (mem_delivered hdel).2 with
      ⟨-, ⟨c2, hcc, hage⟩, -⟩
    rw [hcr] at hcc
    injection hcc with hcc
    injection hcc with hcc
    omega
  · intro hin
    have h1 := run_trace_gt cfg sink rest _ hnr d.thread_id hin
    have h2 : d.thread_id ≤ (monitorIteration cfg sink now f last).watermark := by
      rw [monitorIteration_watermark, stepWatermark, hnc]
      simp only [Bool.false_eq_true, if_false]
      exact batchMaxId_mem_le last _ d hmem
    omega

/-- Witness for `observed_never_redelivered`: the too-young record with
identifier 10 is absent from the delivery trace of a later non-regressing
tick. -/
theorem observed_never_redelivered_witness :
    (mkDeal 10 60 200).thread_id ∉ runTraceIds cfgA sinkOk [(900, .ok [mkRaw 12 60 0])]
      ((monitorIteration cfgA sinkOk 600 (.ok [mkRaw 10 60 200]) 0).watermark) :=
  (observed_never_redelivered cfgA sinkOk 600 (.ok [mkRaw 10 60 200]) 0 (mkDeal 10 60 200)
    [(900, .ok [mkRaw 12 60 0])] (by decide) (by decide) (by decide)).2

end Dealabs
